import Mathlib

/-!
Verification development for `todo_scheduler.py` (class `TodoWithScheduler`).

The Python program keeps two pieces of state:
  * `self.tasks`    : a list of task dicts
      {"id": int, "task": str, "priority": str, "completed": bool, "created_at": str}
  * `self.schedule` : an insertion-ordered dict mapping a time slot string
      "HH:MM" to the list of task ids occupying that slot.

We embed the state shallowly: the tasks list becomes a `List Task`, the
insertion-ordered dict becomes an association list `List (String × List Nat)`
whose operations mirror Python dict semantics (lookup of the first matching
key, update in place, insertion of a fresh key at the end, deletion keeps
order of the rest).  Every operation of the class becomes a pure function
from the state to a result together with the new state.  `datetime.now()` is
passed in as an explicit `now : String` argument.  `print` calls produce no
state change and are dropped.
-/

namespace TodoScheduler

/-- Task record: embeds the dict built in `add_task` (todo_scheduler.py lines
15–21), with fields `id`, `task`, `priority`, `completed`, `created_at`. -/
structure Task where
  id : Nat
  task : String
  priority : String
  completed : Bool
  created_at : String
deriving DecidableEq, Repr

/-- Combined state of `TodoWithScheduler`: `self.tasks` and `self.schedule`
(todo_scheduler.py lines 7–8).  The schedule dict is modelled as an
insertion-ordered association list. -/
structure State where
  tasks : List Task
  schedule : List (String × List Nat)
deriving DecidableEq, Repr

/-- Initial state set up by `__init__` before `load_data`: empty task list
and empty schedule (todo_scheduler.py lines 7–8). -/
def State.empty : State := ⟨[], []⟩

/-! ### Time parsing: `datetime.strptime(time_str, "%H:%M")`

CPython's `strptime` compiles `"%H:%M"` to the regular expression
`(2[0-3]|[0-1]\d|\d):([0-5]\d|\d)` and requires that a match starts at
position 0 and consumes the whole input (leftover input raises
`ValueError: unconverted data remains`).  In particular one-digit hour or
minute components such as `"9:5"` are accepted.  The functions below encode
exactly that matching discipline on the character list of the input. -/

/-- Numeric value of a decimal digit character. -/
def digitVal (c : Char) : Nat := c.toNat - 48

/-- Match of the minute group `([0-5]\d|\d)` against the full remainder of
the input: a match that leaves characters unconsumed makes `strptime` raise,
so only a complete two-digit or complete one-digit remainder succeeds. -/
def matchM : List Char → Option Nat
  | [a] => if a.isDigit then some (digitVal a) else none
  | [a, b] =>
      if ('0' ≤ a ∧ a ≤ '5') ∧ b.isDigit then some (10 * digitVal a + digitVal b)
      else none
  | _ => none

/-- Match of the literal `:` followed by the minute group. -/
def colonM : List Char → Option Nat
  | c :: rest => if c = ':' then matchM rest else none
  | [] => none

/-- Test for the two-digit hour alternatives `2[0-3]` and `[0-1]\d` of the
hour group. -/
def hour2ok (c1 c2 : Char) : Bool :=
  decide ((c1 = '2' ∧ '0' ≤ c2 ∧ c2 ≤ '3') ∨ ((c1 = '0' ∨ c1 = '1') ∧ c2.isDigit = true))

/-- Worker for the `"%H:%M"` match on the input's character list: hour group
(preferring the two-digit alternatives), literal colon, minute group.  When
the two-digit hour alternative matches, its second character is a digit, so
the regex backtracking into the one-digit alternative (which would need a
`:` there) can never succeed and is omitted. -/
def parseHMList : List Char → Option (Nat × Nat)
  | c1 :: c2 :: rest =>
      if hour2ok c1 c2 then
        (colonM rest).map (fun m => (10 * digitVal c1 + digitVal c2, m))
      else if c1.isDigit then
        (colonM (c2 :: rest)).map (fun m => (digitVal c1, m))
      else none
  | _ => none

/-- Embedding of `datetime.strptime(time_str, "%H:%M")` (todo_scheduler.py
line 62): returns the parsed `(hour, minute)` or `none` where Python raises
`ValueError`. -/
def parseHM (s : String) : Option (Nat × Nat) :=
  parseHMList s.toList

/-- Two-digit zero-padded decimal rendering of `n < 100`, as produced by
`strftime` for the `%H` and `%M` fields. -/
def pad2 (n : Nat) : String := ⟨[Char.ofNat (48 + n / 10), Char.ofNat (48 + n % 10)]⟩

/-- Canonical slot string `time(h, m).strftime("%H:%M")` (todo_scheduler.py
line 62). -/
def canon (h m : Nat) : String := pad2 h ++ ":" ++ pad2 m

/-! ### Association-list operations mirroring Python dict semantics -/

/-- Lookup `sch[k]` on the schedule dict: value at the first matching key. -/
def findSlot (k : String) : List (String × List Nat) → Option (List Nat)
  | [] => none
  | p :: ps => if p.1 = k then some p.2 else findSlot k ps

/-- In-place update of the value at key `k` (position preserved), as in
`self.schedule[task_time].append(...)`. -/
def updateSlot (k : String) (f : List Nat → List Nat) :
    List (String × List Nat) → List (String × List Nat)
  | [] => []
  | p :: ps => if p.1 = k then (p.1, f p.2) :: ps else p :: updateSlot k f ps

/-! ### Operations of `TodoWithScheduler` -/

/-- Embedding of `schedule_task` (todo_scheduler.py lines 58–83).  On parse
failure it returns `False` leaving the state unchanged; on success it
canonicalizes the time, creates the slot at the end of the dict if absent
(`self.schedule[task_time] = []`), and appends the id to the slot unless it
is already present, returning `True`. -/
def schedule_task (task_id : Nat) (time_str : String) (s : State) : Bool × State :=
  match parseHM time_str with
  | none => (false, s)
  | some (h, m) =>
      let task_time := canon h m
      let sched :=
        match findSlot task_time s.schedule with
        | none => s.schedule ++ [(task_time, [])]
        | some _ => s.schedule
      let sched2 := updateSlot task_time
        (fun ids => if task_id ∈ ids then ids else ids ++ [task_id]) sched
      (true, ⟨s.tasks, sched2⟩)

/-- Embedding of `add_task` (todo_scheduler.py lines 12–29).  The id is
recomputed as `len(self.tasks) + 1`; the new task dict is appended; if a
truthy `scheduled_time` was given (Python truthiness: `None` and `""` are
falsy), `schedule_task` is invoked on the new id.  Returns the id and the
new state; `datetime.now().strftime("%Y-%m-%d %H:%M")` is the `now`
argument. -/
def add_task (task : String) (priority : String) (scheduled_time : Option String)
    (now : String) (s : State) : Nat × State :=
  let task_id := s.tasks.length + 1
  let new_task : Task := ⟨task_id, task, priority, false, now⟩
  let s1 : State := ⟨s.tasks ++ [new_task], s.schedule⟩
  match scheduled_time with
  | some t => if t.isEmpty then (task_id, s1) else (task_id, (schedule_task task_id t s1).2)
  | none => (task_id, s1)

/-- Cascade loop shared by `remove_task` (todo_scheduler.py lines 39–43) and
`unschedule_task` (lines 88–92): for each slot containing the id, `remove`
its first occurrence and delete the slot if its list became empty; slots not
containing the id are left untouched (even if already empty). -/
def cascadeRemove (task_id : Nat) (sch : List (String × List Nat)) :
    List (String × List Nat) :=
  sch.filterMap (fun p =>
    if task_id ∈ p.2 then
      if p.2.erase task_id = [] then none else some (p.1, p.2.erase task_id)
    else some p)

/-- Embedding of `remove_task` (todo_scheduler.py lines 31–46): pops the
first task whose id matches, cascades removal of the id from the schedule,
and returns `True`; returns `False` with the state unchanged when no task
matches. -/
def remove_task (task_id : Nat) (s : State) : Bool × State :=
  if s.tasks.any (fun t => t.id == task_id) then
    (true, ⟨s.tasks.eraseP (fun t => t.id == task_id), cascadeRemove task_id s.schedule⟩)
  else
    (false, s)

/-- Helper for `mark_complete`: set `completed = True` on the first task
whose id matches, leaving the rest of the list untouched. -/
def setCompleteFirst (task_id : Nat) : List Task → List Task
  | [] => []
  | t :: ts =>
      if t.id = task_id then ⟨t.id, t.task, t.priority, true, t.created_at⟩ :: ts
      else t :: setCompleteFirst task_id ts

/-- Embedding of `mark_complete` (todo_scheduler.py lines 48–56): sets
`completed = True` on the first matching task and returns `True`; returns
`False` with the state unchanged when no task matches. -/
def mark_complete (task_id : Nat) (s : State) : Bool × State :=
  if s.tasks.any (fun t => t.id == task_id) then
    (true, ⟨setCompleteFirst task_id s.tasks, s.schedule⟩)
  else
    (false, s)

/-- Embedding of `unschedule_task` (todo_scheduler.py lines 85–106): removes
the id from every slot containing it, deleting slots left empty, and returns
whether the id was found in at least one slot. -/
def unschedule_task (task_id : Nat) (s : State) : Bool × State :=
  (s.schedule.any (fun p => task_id ∈ p.2), ⟨s.tasks, cascadeRemove task_id s.schedule⟩)

/-- Priority check performed by the CLI shell before calling `add_task`
(todo_scheduler.py lines 200–202, applied to the lowercased raw input):
`if priority not in ["high", "medium", "low"]: priority = "medium"`. -/
def shellNormalizePriority (p : String) : String :=
  if p = "high" ∨ p = "medium" ∨ p = "low" then p else "medium"

/-! ### Persistence: `save_data` / `load_data`

`save_data` (todo_scheduler.py lines 150–158) writes
`json.dump({"tasks": self.tasks, "schedule": self.schedule})`; `load_data`
(lines 160–172) reads the file back with `json.load` and assigns
`data.get("tasks", [])` and `data.get("schedule", {})`, catching only
`json.JSONDecodeError` and `FileNotFoundError`.  We model the persisted blob
at the level of the structured JSON document, with the constructors the
program's data can produce. -/

/-- JSON values as produced and consumed by `json.dump` / `json.load`,
restricted to the constructors the program's blob uses; `null` serves as the
out-of-band default marker for absent object fields. -/
inductive Json where
  | null : Json
  | num (n : Nat) : Json
  | str (s : String) : Json
  | bool (b : Bool) : Json
  | arr (xs : List Json) : Json
  | obj (kvs : List (String × Json)) : Json

/-- Python `dict.get(k, dflt)`: value at the first matching key (dict keys
are unique), or the default. -/
def jGet (kvs : List (String × Json)) (k : String) (dflt : Json) : Json :=
  match kvs with
  | [] => dflt
  | p :: ps => if p.1 = k then p.2 else jGet ps k dflt

/-- JSON encoding of one task dict (the keys in the order `add_task` builds
them). -/
def taskToJson (t : Task) : Json :=
  .obj [("id", .num t.id), ("task", .str t.task), ("priority", .str t.priority),
        ("completed", .bool t.completed), ("created_at", .str t.created_at)]

/-- Embedding of `save_data`'s `json.dump({"tasks": ..., "schedule": ...})`
(todo_scheduler.py lines 150–158), at the level of the structured JSON
document. -/
def save_data (s : State) : Json :=
  .obj [("tasks", .arr (s.tasks.map taskToJson)),
        ("schedule", .obj (s.schedule.map (fun p => (p.1, .arr (p.2.map .num)))))]

/-- Typed decoding of one task dict.  Python performs no validation and
stores the raw dict; this decoder recognizes exactly the well-formed task
objects — the only ones representable in the typed model. -/
def decodeTask : Json → Option Task
  | .obj kvs =>
      match jGet kvs "id" .null, jGet kvs "task" .null, jGet kvs "priority" .null,
            jGet kvs "completed" .null, jGet kvs "created_at" .null with
      | .num i, .str d, .str p, .bool c, .str ca => some ⟨i, d, p, c, ca⟩
      | _, _, _, _, _ => none
  | _ => none

/-- Typed decoding of the `"tasks"` array. -/
def decodeTaskList : List Json → Option (List Task)
  | [] => some []
  | j :: js =>
      match decodeTask j, decodeTaskList js with
      | some t, some ts => some (t :: ts)
      | _, _ => none

/-- Typed decoding of one slot's id array. -/
def decodeIdList : List Json → Option (List Nat)
  | [] => some []
  | .num n :: js => (decodeIdList js).map (fun ns => n :: ns)
  | _ :: _ => none

/-- Typed decoding of the `"schedule"` object. -/
def decodeSlots : List (String × Json) → Option (List (String × List Nat))
  | [] => some []
  | (k, .arr js) :: ps =>
      match decodeIdList js, decodeSlots ps with
      | some ns, some rest => some ((k, ns) :: rest)
      | _, _ => none
  | _ :: _ => none

/-- A persisted blob as `load_data` encounters it: the file may be missing
(`os.path.exists` false), its text may fail `json.load`
(`json.JSONDecodeError`), or it parses to a JSON document. -/
inductive Blob where
  | missing : Blob
  | unparseable : Blob
  | parsed (j : Json) : Blob

/-- Embedding of `load_data` (todo_scheduler.py lines 160–172), invoked from
`__init__` where the state is empty.  A missing file leaves the empty state
in place; a `json.JSONDecodeError` is caught and the empty state restored.
A parsed document that is not an object makes `data.get` raise an uncaught
`AttributeError`, modelled as `.error`.  For an object, Python assigns the
raw field values without validation; documents whose fields decode to the
typed model yield `.ok (some state)`, and ill-typed field values — which
Python accepts as garbage state — fall outside the typed model and are
reported as `.ok none`. -/
def load_data : Blob → Except String (Option State)
  | .missing => .ok (some State.empty)
  | .unparseable => .ok (some State.empty)
  | .parsed j =>
      match j with
      | .obj kvs =>
          match jGet kvs "tasks" (.arr []), jGet kvs "schedule" (.obj []) with
          | .arr tjs, .obj sjs =>
              match decodeTaskList tjs, decodeSlots sjs with
              | some ts, some sch => .ok (some ⟨ts, sch⟩)
              | _, _ => .ok none
          | _, _ => .ok none
      | _ => .error "AttributeError"

/-! ### Reachability and invariants -/

/-- States reachable from the empty store by the five mutating operations,
with `schedule_task` restricted to ids of currently-present tasks (the
restriction under which referential integrity of the Schedule Index can
hold, since `schedule_task` itself performs no existence check). -/
inductive ReachChk : State → Prop where
  | empty : ReachChk State.empty
  | add (s : State) (d p : String) (sch : Option String) (now : String) :
      ReachChk s → ReachChk (add_task d p sch now s).2
  | remove (s : State) (i : Nat) : ReachChk s → ReachChk (remove_task i s).2
  | mark (s : State) (i : Nat) : ReachChk s → ReachChk (mark_complete i s).2
  | sched (s : State) (i : Nat) (t : String) : ReachChk s →
      s.tasks.any (fun tk => tk.id == i) = true → ReachChk (schedule_task i t s).2
  | unsched (s : State) (i : Nat) : ReachChk s → ReachChk (unschedule_task i s).2

/-- Referential integrity of the Schedule Index: every id in every slot
refers to a task present in the Task Store. -/
def RefIntegrity (s : State) : Prop :=
  ∀ p ∈ s.schedule, ∀ i ∈ p.2, ∃ t ∈ s.tasks, t.id = i

/-- Structural well-formedness of the schedule dict maintained by the
operations: no slot lists an id twice, and no slot is empty. -/
def SlotsWF (s : State) : Prop :=
  ∀ p ∈ s.schedule, p.2.Nodup ∧ p.2 ≠ []

/-- Full inductive invariant: structural well-formedness together with
referential integrity. -/
def SchedInv (s : State) : Prop := SlotsWF s ∧ RefIntegrity s

/-! ### Concrete scenario states used by counterexamples and witnesses -/

/-- State after `add_task("a")` on the empty store (id 1 assigned). -/
def bugS1 : State := (add_task "a" "medium" none "2025-01-01 10:00" State.empty).2

/-- State after a further `add_task("b")` (id 2 assigned). -/
def bugS2 : State := (add_task "b" "medium" none "2025-01-01 10:01" bugS1).2

/-- State after `remove_task(1)`: only the task with id 2 remains. -/
def bugS3 : State := (remove_task 1 bugS2).2

/-- State with one task (id 1) scheduled at "09:00", reached by checked
operations. -/
def wSched : State :=
  (schedule_task 1 "09:00" (add_task "Buy milk" "high" none "2025-01-01 09:00" State.empty).2).2

end TodoScheduler

namespace TodoScheduler

/-! ## General lemmas about the operations -/

/-- `schedule_task` never touches the task list. -/
theorem schedule_task_tasks (i : Nat) (t : String) (s : State) :
    (schedule_task i t s).2.tasks = s.tasks := by
  unfold schedule_task
  split <;> rfl

/-- The task list produced by `add_task` is always the old list with the new
record appended, whatever the `scheduled_time` argument. -/
theorem add_task_tasks (d p : String) (sch : Option String) (now : String) (s : State) :
    (add_task d p sch now s).2.tasks
      = s.tasks ++ [⟨s.tasks.length + 1, d, p, false, now⟩] := by
  unfold add_task
  cases sch with
  | none => rfl
  | some t =>
      by_cases h : t.isEmpty <;> simp [h, schedule_task_tasks]

end TodoScheduler

namespace TodoScheduler

/-! ## Theorems for the claims -/

/-- Claim C1 (code_bug): the reference design assigns ids as
`count_of_tasks_ever_created + 1`, never reusing one; the code recomputes
`len(self.tasks) + 1`.  After add("a"), add("b"), remove_task(1), three
tasks have ever been created, yet the next `add_task` returns id 2 — an id
previously assigned and still carried by a live task — instead of a fresh
id 3. -/
theorem claim1_id_reuse_bug :
    (add_task "c" "medium" none "2025-01-01 10:02" bugS3).1 = 2 ∧
      bugS3.tasks.map (fun t => t.id) = [2] := by
  decide

/-- Claim C2, counterexample: one `schedule_task(99, "08:00")` from the empty
store — a reachable state — succeeds and leaves slot "08:00" holding id 99
while the Task Store is empty, so the slot id refers to no present task. -/
theorem claim2_counterexample :
    (schedule_task 99 "08:00" State.empty).1 = true ∧
      (schedule_task 99 "08:00" State.empty).2.schedule = [("08:00", [99])] ∧
      (schedule_task 99 "08:00" State.empty).2.tasks = [] := by
  decide

/-- Claim C3, counterexample: the claim says the non-zero-padded string
"9:5" is rejected, but `strptime("%H:%M")` accepts one-digit components, so
`schedule_task` succeeds and stores the canonicalized slot "09:05". -/
theorem claim3_counterexample :
    (schedule_task 1 "9:5" State.empty).1 = true ∧
      (schedule_task 1 "9:5" State.empty).2.schedule = [("09:05", [1])] := by
  decide

/-- Claim C4, counterexample: scheduling id 1 at "09:00" and then at "10:00"
leaves id 1 in both slots — `schedule_task` never vacates a previous slot. -/
theorem claim4_counterexample :
    (schedule_task 1 "10:00" (schedule_task 1 "09:00" State.empty).2).2.schedule
      = [("09:00", [1]), ("10:00", [1])] := by
  decide

/-- Claim C5, counterexample: the claim says the store coerces any priority
outside {high, medium, low} to "medium", but `add_task` stores the input
verbatim: an "urgent" priority is persisted as "urgent". -/
theorem claim5_counterexample :
    ((add_task "x" "urgent" none "2025-01-01 00:00" State.empty).2.tasks.map
      (fun t => t.priority)) = ["urgent"] := by
  decide

/-- Claim C7, counterexample: "7:3" fails the strict zero-padded HH:MM parse
the claim quantifies over, yet `schedule_task` accepts it (Python `strptime`
is lenient) and modifies the Schedule Index instead of returning failure. -/
theorem claim7_counterexample :
    (schedule_task 2 "7:3" State.empty).1 = true ∧
      (schedule_task 2 "7:3" State.empty).2.schedule = [("07:03", [2])] := by
  decide

/-- Claim C9, counterexample: a blob that parses as JSON but is not an
object (here the document `[]`) is malformed, and on it `data.get` raises an
uncaught `AttributeError` rather than yielding the empty store. -/
theorem claim9_counterexample :
    load_data (Blob.parsed (Json.arr [])) = Except.error "AttributeError" := by
  rfl

/-- Claim C9 as amended: for a missing file, and for file contents that fail
JSON parsing, `load_data` does not raise — the caught condition leaves the
empty Task Store and empty Schedule Index in place. -/
theorem claim9_load_missing_or_corrupt_yields_empty :
    load_data Blob.missing = Except.ok (some State.empty) ∧
      load_data Blob.unparseable = Except.ok (some State.empty) := by
  exact ⟨rfl, rfl⟩

/-- Claim C7 as amended: for every time string that the code's own parse
(`strptime("%H:%M")`, which also accepts one-digit components) rejects,
`schedule_task` returns failure and leaves the whole state — Task Store and
Schedule Index — exactly unchanged. -/
theorem claim7_reject_leaves_state_unchanged (s : State) (task_id : Nat)
    (time_str : String) (h : parseHM time_str = none) :
    schedule_task task_id time_str s = (false, s) := by
  unfold schedule_task
  rw [h]

/-- Witness for C7 at the concrete malformed string "abc". -/
theorem claim7_witness :
    schedule_task 1 "abc" State.empty = (false, State.empty) :=
  claim7_reject_leaves_state_unchanged State.empty 1 "abc" (by decide)

/-- Claim C5 as amended: for every description and priority string, the Task
record stored by `add_task` has priority equal to the input verbatim — the
store performs no coercion.  The coercion to {high, medium, low} with
fallback "medium" is performed by the CLI shell on the user's input before
it calls `add_task`. -/
theorem claim5_priority_stored_verbatim (d p : String) (sch : Option String)
    (now : String) (s : State) (q : String) :
    (add_task d p sch now s).2.tasks
        = s.tasks ++ [⟨s.tasks.length + 1, d, p, false, now⟩] ∧
      ((q = "high" ∨ q = "medium" ∨ q = "low") → shellNormalizePriority q = q) ∧
      (¬(q = "high" ∨ q = "medium" ∨ q = "low") → shellNormalizePriority q = "medium") := by
  refine ⟨add_task_tasks d p sch now s, ?_, ?_⟩ <;>
    intro hq <;> simp [shellNormalizePriority, hq]

/-- Witness for C5: the store keeps the out-of-range priority "urgent"
verbatim, while the shell's check maps "urgent" to "medium". -/
theorem claim5_witness :
    (add_task "x" "urgent" none "2025-01-01 00:00" State.empty).2.tasks
        = [⟨1, "x", "urgent", false, "2025-01-01 00:00"⟩] ∧
      shellNormalizePriority "urgent" = "medium" := by
  have h := claim5_priority_stored_verbatim "x" "urgent" none "2025-01-01 00:00"
    State.empty "urgent"
  exact ⟨by rw [h.1]; rfl, h.2.2 (by decide)⟩

/-- Decoding inverts the encoding of a single task dict. -/
theorem decodeTask_taskToJson (t : Task) : decodeTask (taskToJson t) = some t := rfl

/-- Decoding inverts the encoding of the tasks array. -/
theorem decodeTaskList_map (ts : List Task) :
    decodeTaskList (ts.map taskToJson) = some ts := by
  induction ts with
  | nil => rfl
  | cons t ts ih => simp [decodeTaskList, decodeTask_taskToJson, ih]

/-- Decoding inverts the encoding of one slot's id array. -/
theorem decodeIdList_map (ns : List Nat) :
    decodeIdList (ns.map Json.num) = some ns := by
  induction ns with
  | nil => rfl
  | cons n ns ih => simp [decodeIdList, ih]

/-- Decoding inverts the encoding of the schedule object. -/
theorem decodeSlots_map (sch : List (String × List Nat)) :
    decodeSlots (sch.map (fun p => (p.1, Json.arr (p.2.map Json.num)))) = some sch := by
  induction sch with
  | nil => rfl
  | cons p ps ih => simp [decodeSlots, decodeIdList_map, ih]

/-- Claim C8 (confirmed): deserializing the blob produced by serializing any
store state yields exactly the same Task Store (all fields, same order) and
the same slot-to-id-sequence mapping with order preserved. -/
theorem claim8_serialize_roundtrip (s : State) :
    load_data (Blob.parsed (save_data s)) = Except.ok (some s) := by
  show load_data (Blob.parsed (Json.obj [("tasks", Json.arr (s.tasks.map taskToJson)),
    ("schedule", Json.obj (s.schedule.map (fun p => (p.1, Json.arr (p.2.map Json.num)))))]))
      = Except.ok (some s)
  simp [load_data, jGet, decodeTaskList_map, decodeSlots_map]

/-- Frame relation for `mark_complete`: the new task keeps id, description,
priority and creation time, and is fully unchanged unless its id matched. -/
def MarkFrame (i : Nat) (t t' : Task) : Prop :=
  t'.id = t.id ∧ t'.task = t.task ∧ t'.priority = t.priority ∧
    t'.created_at = t.created_at ∧ (t.id ≠ i → t' = t)

/-- The frame relation holds pointwise between a task list and the result of
setting the first matching task complete. -/
theorem setCompleteFirst_frame (i : Nat) (ts : List Task) :
    List.Forall₂ (MarkFrame i) ts (setCompleteFirst i ts) := by
  induction ts with
  | nil => exact List.Forall₂.nil
  | cons t ts ih =>
      by_cases h : t.id = i
      · simp only [setCompleteFirst, if_pos h]
        exact List.Forall₂.cons ⟨rfl, rfl, rfl, rfl, fun hn => absurd h hn⟩
          (List.forall₂_same.2 (fun x _ => ⟨rfl, rfl, rfl, rfl, fun _ => rfl⟩))
      · simp only [setCompleteFirst, if_neg h]
        exact List.Forall₂.cons ⟨rfl, rfl, rfl, rfl, fun _ => rfl⟩ ih

/-- Setting the first matching task complete twice is the same as once. -/
theorem setCompleteFirst_idem (i : Nat) (ts : List Task) :
    setCompleteFirst i (setCompleteFirst i ts) = setCompleteFirst i ts := by
  induction ts with
  | nil => rfl
  | cons t ts ih =>
      by_cases h : t.id = i
      · simp [setCompleteFirst, h]
      · simp [setCompleteFirst, h, ih]

/-- Setting the first matching task complete does not change which ids are
present. -/
theorem setCompleteFirst_any (i j : Nat) (ts : List Task) :
    (setCompleteFirst i ts).any (fun t => t.id == j) = ts.any (fun t => t.id == j) := by
  induction ts with
  | nil => rfl
  | cons t ts ih =>
      by_cases h : t.id = i
      · simp [setCompleteFirst, h]
      · simp [setCompleteFirst, h, ih]

/-- Comparison of unsigned 32-bit words transported to `toNat`. -/
theorem uint32_le_toNat {a b : UInt32} (h : a ≤ b) : a.toNat ≤ b.toNat := by
  rw [UInt32.le_def] at h
  have := BitVec.le_def.1 h
  simpa [UInt32.toNat] using this

/-- Comparison of characters transported to `toNat`. -/
theorem char_le_toNat {a b : Char} (h : a ≤ b) : a.toNat ≤ b.toNat := by
  rw [Char.le_def] at h
  exact uint32_le_toNat h

/-- A decimal digit character has code point between 48 and 57. -/
theorem isDigit_toNat {c : Char} (h : c.isDigit = true) : 48 ≤ c.toNat ∧ c.toNat ≤ 57 := by
  simp only [Char.isDigit, ge_iff_le, Bool.and_eq_true, decide_eq_true_eq] at h
  have h1 := uint32_le_toNat h.1
  have h2 := uint32_le_toNat h.2
  have e1 : (48 : UInt32).toNat = 48 := rfl
  have e2 : (57 : UInt32).toNat = 57 := rfl
  simp only [Char.toNat]
  omega

/-- The minute group only matches values below 60. -/
theorem matchM_lt {l : List Char} {m : Nat} (h : matchM l = some m) : m < 60 := by
  match l with
  | [] => simp [matchM] at h
  | [a] =>
      by_cases hd : a.isDigit = true
      · simp [matchM, hd] at h
        have := isDigit_toNat hd
        simp only [digitVal] at h
        omega
      · simp [matchM, hd] at h
  | [a, b] =>
      by_cases hc : (('0' ≤ a ∧ a ≤ '5') ∧ b.isDigit = true)
      · simp [matchM, hc] at h
        have ha1 := char_le_toNat hc.1.1
        have ha2 := char_le_toNat hc.1.2
        have hb := isDigit_toNat hc.2
        have e0 : ('0' : Char).toNat = 48 := rfl
        have e5 : ('5' : Char).toNat = 53 := rfl
        simp only [digitVal] at h
        omega
      · simp [matchM, hc] at h
  | a :: b :: c :: t => simp [matchM] at h

/-- The colon-then-minute match only yields minutes below 60. -/
theorem colonM_lt {l : List Char} {m : Nat} (h : colonM l = some m) : m < 60 := by
  match l with
  | [] => simp [colonM] at h
  | c :: r =>
      by_cases hc : c = ':'
      · exact matchM_lt (by simpa [colonM, hc] using h)
      · simp [colonM, hc] at h

/-- Soundness of the `%H:%M` match: every accepted input parses to an
in-range time of day. -/
theorem parseHMList_lt {l : List Char} {h m : Nat}
    (hp : parseHMList l = some (h, m)) : h < 24 ∧ m < 60 := by
  match l with
  | [] => simp [parseHMList] at hp
  | [c] => simp [parseHMList] at hp
  | c1 :: c2 :: rest =>
      by_cases h2 : hour2ok c1 c2 = true
      · rw [show parseHMList (c1 :: c2 :: rest)
            = (colonM rest).map (fun m => (10 * digitVal c1 + digitVal c2, m)) by
            simp [parseHMList, h2]] at hp
        cases hcm : colonM rest with
        | none => simp [hcm] at hp
        | some m0 =>
            simp only [hcm, Option.map_some, Option.some_inj, Prod.mk.injEq] at hp
            obtain ⟨hh, hmm⟩ := hp
            refine ⟨?_, colonM_lt hcm⟩
            have h2' := of_decide_eq_true (by simpa [hour2ok] using h2)
            rcases h2' with ⟨hc1, hc2a, hc2b⟩ | ⟨hc1, hdig⟩
            · subst hc1
              have hb1 := char_le_toNat hc2a
              have hb2 := char_le_toNat hc2b
              have e0 : ('0' : Char).toNat = 48 := rfl
              have e3 : ('3' : Char).toNat = 51 := rfl
              rw [e0] at hb1
              rw [e3] at hb2
              have d2 : digitVal '2' = 2 := rfl
              rw [d2]
              simp only [digitVal]
              omega
            · have hb := isDigit_toNat hdig
              have hd1 : digitVal c1 ≤ 1 := by
                rcases hc1 with rfl | rfl <;> decide
              simp only [digitVal] at hd1 hb ⊢
              omega
      · by_cases hd : c1.isDigit = true
        · rw [show parseHMList (c1 :: c2 :: rest)
              = (colonM (c2 :: rest)).map (fun m => (digitVal c1, m)) by
              simp [parseHMList, h2, hd]] at hp
          cases hcm : colonM (c2 :: rest) with
          | none => simp [hcm] at hp
          | some m0 =>
              simp only [hcm, Option.map_some, Option.some_inj, Prod.mk.injEq] at hp
              obtain ⟨hh, hmm⟩ := hp
              refine ⟨?_, colonM_lt hcm⟩
              have hb := isDigit_toNat hd
              simp only [digitVal] at hb ⊢
              omega
        · simp [parseHMList, h2, hd] at hp

/-- Soundness of the time parse at the `String` interface. -/
theorem parseHM_lt {s : String} {h m : Nat} (hp : parseHM s = some (h, m)) :
    h < 24 ∧ m < 60 :=
  parseHMList_lt hp

/-- Completeness on canonical forms: every zero-padded in-range `HH:MM`
string parses back to its time of day. -/
theorem parseHM_canon : ∀ h < 24, ∀ m < 60, parseHM (canon h m) = some (h, m) := by
  decide

/-- Updating the dict at one key does not change lookups at other keys. -/
theorem findSlot_updateSlot_ne (k k' : String) (f : List Nat → List Nat)
    (l : List (String × List Nat)) (hne : k ≠ k') :
    findSlot k (updateSlot k' f l) = findSlot k l := by
  induction l with
  | nil => rfl
  | cons p ps ih =>
      by_cases h : p.1 = k'
      · have hk : p.1 ≠ k := fun hh => hne (hh.symm.trans h)
        simp [updateSlot, findSlot, h, hk, Ne.symm hne]
      · by_cases h2 : p.1 = k <;> simp [updateSlot, findSlot, h, h2, hne, ih]

/-- Updating the dict at a key maps its lookup through the update. -/
theorem findSlot_updateSlot_self (k : String) (f : List Nat → List Nat)
    (l : List (String × List Nat)) :
    findSlot k (updateSlot k f l) = (findSlot k l).map f := by
  induction l with
  | nil => rfl
  | cons p ps ih =>
      by_cases h : p.1 = k <;> simp [updateSlot, findSlot, h, ih]

/-- Appending a fresh key at the end does not change lookups at other keys. -/
theorem findSlot_append_ne (k k' : String) (v : List Nat)
    (l : List (String × List Nat)) (hne : k ≠ k') :
    findSlot k (l ++ [(k', v)]) = findSlot k l := by
  induction l with
  | nil => simp [findSlot, Ne.symm hne]
  | cons p ps ih =>
      by_cases h : p.1 = k <;> simp [findSlot, h, ih]

/-- Appending an absent key at the end makes its lookup find the new value. -/
theorem findSlot_append_self (k : String) (v : List Nat)
    (l : List (String × List Nat)) (habs : findSlot k l = none) :
    findSlot k (l ++ [(k, v)]) = some v := by
  induction l with
  | nil => simp [findSlot]
  | cons p ps ih =>
      by_cases h : p.1 = k
      · simp [findSlot, h] at habs
      · simp only [findSlot, h] at habs
        simp [findSlot, h, ih habs]

/-- A successful `schedule_task` stores the id under the canonical rendering
of the parsed time. -/
theorem schedule_task_stores (task_id : Nat) (t : String) (st : State) (h m : Nat)
    (hp : parseHM t = some (h, m)) :
    (schedule_task task_id t st).1 = true ∧
      ∃ ids, findSlot (canon h m) (schedule_task task_id t st).2.schedule = some ids ∧
        task_id ∈ ids := by
  unfold schedule_task
  rw [hp]
  refine ⟨rfl, ?_⟩
  cases hfs : findSlot (canon h m) st.schedule with
  | none =>
      refine ⟨[task_id], ?_, by simp⟩
      show findSlot (canon h m) (updateSlot (canon h m) _ _) = _
      rw [findSlot_updateSlot_self]
      simp [hfs, findSlot_append_self _ _ _ hfs]
  | some l0 =>
      refine ⟨if task_id ∈ l0 then l0 else l0 ++ [task_id], ?_, ?_⟩
      · show findSlot (canon h m) (updateSlot (canon h m) _ _) = _
        rw [findSlot_updateSlot_self]
        simp [hfs]
      · by_cases hin : task_id ∈ l0 <;> simp [hin]

/-- Claim C3 as amended: every zero-padded in-range `HH:MM` string is
accepted, with the stored canonical slot key equal to the input; but
acceptance is not exactly the zero-padded forms — the parse is Python's
lenient `strptime`, whose accepted values are still always in range
00:00–23:59, while one-digit components such as "9:5" are also accepted and
stored under their zero-padded canonicalization (see the counterexample). -/
theorem claim3_canonical_accepted (task_id h m : Nat) (st : State)
    (hh : h < 24) (hm : m < 60) :
    (schedule_task task_id (canon h m) st).1 = true ∧
      (∃ ids, findSlot (canon h m) (schedule_task task_id (canon h m) st).2.schedule
          = some ids ∧ task_id ∈ ids) ∧
      parseHM (canon h m) = some (h, m) ∧
      (∀ s h' m', parseHM s = some (h', m') → h' < 24 ∧ m' < 60) := by
  have hp : parseHM (canon h m) = some (h, m) := parseHM_canon h hh m hm
  have hs := schedule_task_stores task_id (canon h m) st h m hp
  exact ⟨hs.1, hs.2, hp, fun _ _ _ hq => parseHM_lt hq⟩

/-- Witness for C3 at the concrete canonical input "14:30". -/
theorem claim3_witness :
    (schedule_task 1 (canon 14 30) State.empty).1 = true :=
  (claim3_canonical_accepted 1 14 30 State.empty (by decide) (by decide)).1

/-- Claim C4 as amended: a successful `schedule_task` of an id already
occupying some slot into a different slot does not vacate the previous
slot — afterwards the id occupies both the old slot (whose list is exactly
as before) and the new canonical slot. -/
theorem claim4_schedule_does_not_vacate (s : State) (task_id : Nat) (k : String)
    (ids : List Nat) (t : String) (h m : Nat)
    (hk : findSlot k s.schedule = some ids) (_hid : task_id ∈ ids)
    (hp : parseHM t = some (h, m)) (hne : canon h m ≠ k) :
    (schedule_task task_id t s).1 = true ∧
      findSlot k (schedule_task task_id t s).2.schedule = some ids ∧
      ∃ ids', findSlot (canon h m) (schedule_task task_id t s).2.schedule = some ids' ∧
        task_id ∈ ids' := by
  unfold schedule_task
  rw [hp]
  refine ⟨rfl, ?_, ?_⟩
  · show findSlot k (updateSlot (canon h m) _ _) = some ids
    rw [findSlot_updateSlot_ne _ _ _ _ (fun hh => hne hh.symm)]
    cases hfs : findSlot (canon h m) s.schedule with
    | none => simpa [hfs, findSlot_append_ne k (canon h m) _ _ (fun hh => hne hh.symm)] using hk
    | some l0 => simpa [hfs] using hk
  · cases hfs : findSlot (canon h m) s.schedule with
    | none =>
        refine ⟨[task_id], ?_, by simp⟩
        show findSlot (canon h m) (updateSlot (canon h m) _ _) = some [task_id]
        rw [findSlot_updateSlot_self]
        simp [hfs, findSlot_append_self _ _ _ hfs]
    | some l0 =>
        refine ⟨if task_id ∈ l0 then l0 else l0 ++ [task_id], ?_, ?_⟩
        · show findSlot (canon h m) (updateSlot (canon h m) _ _) = _
          rw [findSlot_updateSlot_self]
          simp [hfs]
        · by_cases hin : task_id ∈ l0 <;> simp [hin]

/-- Witness for C4: with task 1 sitting in slot "09:00", scheduling it at
"10:30" succeeds and it still occupies "09:00". -/
theorem claim4_witness :
    (schedule_task 1 "10:30" wSched).1 = true ∧
      findSlot "09:00" (schedule_task 1 "10:30" wSched).2.schedule = some [1] := by
  have h := claim4_schedule_does_not_vacate wSched 1 "09:00" [1] "10:30" 10 30
    (by decide) (by decide) (by decide) (by decide)
  exact ⟨h.1, h.2.1⟩

/-- Every slot surviving the cascade loop comes from an original slot,
either untouched (when it did not contain the id) or with the id erased and
the result nonempty. -/
theorem cascadeRemove_mem {i : Nat} {sch : List (String × List Nat)}
    {p' : String × List Nat} (h : p' ∈ cascadeRemove i sch) :
    ∃ p ∈ sch, (i ∉ p.2 ∧ p' = p) ∨
      (i ∈ p.2 ∧ p.2.erase i ≠ [] ∧ p' = (p.1, p.2.erase i)) := by
  unfold cascadeRemove at h
  rcases List.mem_filterMap.1 h with ⟨p, hp, hf⟩
  by_cases hi : i ∈ p.2
  · by_cases he : p.2.erase i = []
    · simp [hi, he] at hf
    · simp only [if_pos hi, if_neg he] at hf
      exact ⟨p, hp, Or.inr ⟨hi, he, (Option.some_inj.1 hf).symm⟩⟩
  · simp only [if_neg hi] at hf
    exact ⟨p, hp, Or.inl ⟨hi, (Option.some_inj.1 hf).symm⟩⟩

/-- Claim C6 (confirmed, for states satisfying the data-model invariant that
no slot is empty or lists an id twice): when the id is present,
`remove_task` returns true, pops the matching task, and leaves a schedule in
which no slot contains the id and no slot is empty — each slot having had
the id erased and the slots thereby emptied deleted; when the id is absent,
it returns false and leaves the state untouched. -/
theorem claim6_remove_task (s : State) (i : Nat) (hwf : SlotsWF s) :
    (s.tasks.any (fun t => t.id == i) = true →
        (remove_task i s).1 = true ∧
        (remove_task i s).2.tasks = s.tasks.eraseP (fun t => t.id == i) ∧
        (∀ p ∈ (remove_task i s).2.schedule, i ∉ p.2 ∧ p.2 ≠ []) ∧
        (remove_task i s).2.schedule
          = s.schedule.filterMap
              (fun p => if p.2.erase i = [] then none else some (p.1, p.2.erase i))) ∧
      (s.tasks.any (fun t => t.id == i) = false → remove_task i s = (false, s)) := by
  constructor
  · intro hfound
    have hsch : (remove_task i s).2.schedule = cascadeRemove i s.schedule := by
      simp [remove_task, hfound]
    refine ⟨by simp [remove_task, hfound], by simp [remove_task, hfound], ?_, ?_⟩
    · intro p' hp'
      rw [hsch] at hp'
      rcases cascadeRemove_mem hp' with ⟨p, hp, hcase⟩
      rcases hcase with ⟨hni, heq⟩ | ⟨hmem, hne, heq⟩
      · rw [heq]
        exact ⟨hni, (hwf p hp).2⟩
      · rw [heq]
        exact ⟨List.Nodup.not_mem_erase (hwf p hp).1, hne⟩
    · rw [hsch]
      unfold cascadeRemove
      apply List.filterMap_congr
      intro p hp
      by_cases hi : i ∈ p.2
      · simp [hi]
      · simp [hi, List.erase_of_not_mem hi, (hwf p hp).2]
  · intro hnot
    simp [remove_task, hnot]

/-- Witness for C6 at the concrete one-task one-slot state: removing task 1
succeeds and the schedule becomes empty. -/
theorem claim6_witness :
    (remove_task 1 wSched).1 = true ∧ (remove_task 1 wSched).2.schedule = [] := by
  have h := (claim6_remove_task wSched 1 (by unfold SlotsWF; decide)).1 (by decide)
  exact ⟨h.1, by rw [h.2.2.2]; decide⟩

/-- Membership in an updated dict: each pair is either an untouched original
pair or the update of an original pair carrying the key. -/
theorem updateSlot_mem {k : String} {f : List Nat → List Nat}
    {l : List (String × List Nat)} {p' : String × List Nat}
    (h : p' ∈ updateSlot k f l) :
    p' ∈ l ∨ ∃ l0, (p'.1, l0) ∈ l ∧ p'.1 = k ∧ p'.2 = f l0 := by
  induction l with
  | nil => simp [updateSlot] at h
  | cons p ps ih =>
      by_cases hk : p.1 = k
      · simp only [updateSlot, if_pos hk] at h
        rcases List.mem_cons.1 h with heq | htail
        · subst heq
          exact Or.inr ⟨p.2, List.mem_cons_self _ _, hk, rfl⟩
        · exact Or.inl (List.mem_cons_of_mem _ htail)
      · simp only [updateSlot, if_neg hk] at h
        rcases List.mem_cons.1 h with heq | htail
        · exact Or.inl (heq ▸ List.mem_cons_self _ _)
        · rcases ih htail with hin | ⟨l0, hl0, hk', hf⟩
          · exact Or.inl (List.mem_cons_of_mem _ hin)
          · exact Or.inr ⟨l0, List.mem_cons_of_mem _ hl0, hk', hf⟩

/-- Updating at a key that was just appended to a dict not containing it
rewrites exactly the appended entry. -/
theorem updateSlot_append (k : String) (v : List Nat) (f : List Nat → List Nat)
    (l : List (String × List Nat)) (habs : findSlot k l = none) :
    updateSlot k f (l ++ [(k, v)]) = l ++ [(k, f v)] := by
  induction l with
  | nil => simp [updateSlot]
  | cons p ps ih =>
      have hk : p.1 ≠ k := by
        intro he
        simp [findSlot, he] at habs
      simp only [List.cons_append, updateSlot, List.append_eq, if_neg hk]
      rw [ih (by simpa [findSlot, hk] using habs)]

/-- Marking a task complete does not change the multiset of ids. -/
theorem setCompleteFirst_ids (i : Nat) (ts : List Task) :
    (setCompleteFirst i ts).map (fun t => t.id) = ts.map (fun t => t.id) := by
  induction ts with
  | nil => rfl
  | cons t ts ih => by_cases h : t.id = i <;> simp [setCompleteFirst, h, ih]

/-- An id carried by some task is still carried after a `mark_complete`
pass. -/
theorem exists_id_setCompleteFirst {i j : Nat} {ts : List Task}
    (h : ∃ t ∈ ts, t.id = j) : ∃ t ∈ setCompleteFirst i ts, t.id = j := by
  have h1 : j ∈ ts.map (fun t => t.id) := by
    rcases h with ⟨t, ht, rfl⟩
    exact List.mem_map.2 ⟨t, ht, rfl⟩
  rw [← setCompleteFirst_ids i ts] at h1
  rcases List.mem_map.1 h1 with ⟨t, ht, rfl⟩
  exact ⟨t, ht, rfl⟩

/-- The result of `schedule_task` on a parsable time, described through the
dict primitives: append-then-update when the canonical slot is new,
update-in-place when it exists. -/
theorem schedule_task_schedule_eq (i : Nat) (t : String) (s : State) (h m : Nat)
    (hp : parseHM t = some (h, m)) :
    (findSlot (canon h m) s.schedule = none ∧
        (schedule_task i t s).2.schedule
          = updateSlot (canon h m) (fun ids => if i ∈ ids then ids else ids ++ [i])
              (s.schedule ++ [(canon h m, [])])) ∨
      (∃ l0, findSlot (canon h m) s.schedule = some l0 ∧
        (schedule_task i t s).2.schedule
          = updateSlot (canon h m) (fun ids => if i ∈ ids then ids else ids ++ [i])
              s.schedule) := by
  unfold schedule_task
  rw [hp]
  cases hfs : findSlot (canon h m) s.schedule with
  | none => exact Or.inl ⟨rfl, by simp [hfs]⟩
  | some l0 => exact Or.inr ⟨l0, rfl, by simp [hfs]⟩

/-- The slot-list update of `schedule_task` keeps a duplicate-free nonempty
list duplicate-free and nonempty, and introduces no id except the scheduled
one. -/
theorem schedule_update_wf (i : Nat) (l0 : List Nat) (hn : l0.Nodup) (hne : l0 ≠ []) :
    (if i ∈ l0 then l0 else l0 ++ [i]).Nodup ∧
      (if i ∈ l0 then l0 else l0 ++ [i]) ≠ [] ∧
      ∀ j ∈ (if i ∈ l0 then l0 else l0 ++ [i]), j ∈ l0 ∨ j = i := by
  by_cases hin : i ∈ l0
  · simp only [if_pos hin]
    exact ⟨hn, hne, fun j hj => Or.inl hj⟩
  · simp only [if_neg hin]
    refine ⟨?_, by simp, ?_⟩
    · rw [List.nodup_append]
      exact ⟨hn, List.nodup_singleton i, by simpa using fun hji => hin hji⟩
    · intro j hj
      rcases List.mem_append.1 hj with hj | hj
      · exact Or.inl hj
      · exact Or.inr (List.mem_singleton.1 hj)

/-- `schedule_task` on an id carried by a present task preserves the full
schedule invariant. -/
theorem schedule_preserves (i : Nat) (t : String) (s : State) (hinv : SchedInv s)
    (hpres : ∃ tk ∈ s.tasks, tk.id = i) : SchedInv (schedule_task i t s).2 := by
  obtain ⟨hwf, href⟩ := hinv
  cases hp : parseHM t with
  | none =>
      have hid : schedule_task i t s = (false, s) := by
        unfold schedule_task
        rw [hp]
      rw [hid]
      exact ⟨hwf, href⟩
  | some hm =>
      obtain ⟨h, m⟩ := hm
      have htasks := schedule_task_tasks i t s
      have hmem : ∀ p' ∈ (schedule_task i t s).2.schedule,
          (p'.2.Nodup ∧ p'.2 ≠ []) ∧ ∀ j ∈ p'.2, j ∈ p'.2 ∧ (∃ q ∈ s.schedule, j ∈ q.2) ∨ j = i := by
        intro p' hp'
        rcases schedule_task_schedule_eq i t s h m hp with ⟨hfs, heq⟩ | ⟨l0, hfs, heq⟩
        · rw [heq, updateSlot_append _ _ _ _ hfs] at hp'
          rcases List.mem_append.1 hp' with hin | hnew
          · exact ⟨⟨(hwf p' hin).1, (hwf p' hin).2⟩,
              fun j hj => Or.inl ⟨hj, p', hin, hj⟩⟩
          · have : p' = (canon h m, [i]) := by simpa using hnew
            rw [this]
            exact ⟨⟨List.nodup_singleton i, by simp⟩,
              fun j hj => Or.inr (by simpa using hj)⟩
        · rw [heq] at hp'
          rcases updateSlot_mem hp' with hin | ⟨la, hla, hk', hf⟩
          · exact ⟨⟨(hwf p' hin).1, (hwf p' hin).2⟩,
              fun j hj => Or.inl ⟨hj, p', hin, hj⟩⟩
          · have hla' := hwf (p'.1, la) hla
            have hu := schedule_update_wf i la hla'.1 hla'.2
            rw [hf]
            refine ⟨⟨hu.1, hu.2.1⟩, fun j hj => ?_⟩
            rcases hu.2.2 j hj with hj0 | hj0
            · exact Or.inl ⟨hj, (p'.1, la), hla, hj0⟩
            · exact Or.inr hj0
      constructor
      · intro p' hp'
        exact (hmem p' hp').1
      · intro p' hp' j hj
        rw [show (schedule_task i t s).2.tasks = s.tasks from htasks]
        rcases (hmem p' hp').2 j hj with ⟨_, q, hq, hjq⟩ | rfl
        · exact href q hq j hjq
        · exact hpres

/-- The cascade loop, combined with any task-list change that keeps every
id other than the removed one, preserves the full schedule invariant. -/
theorem cascade_schedInv (i : Nat) (s : State) (tasks' : List Task)
    (hinv : SchedInv s)
    (htasks : ∀ j, j ≠ i → (∃ t ∈ s.tasks, t.id = j) → ∃ t ∈ tasks', t.id = j) :
    SchedInv ⟨tasks', cascadeRemove i s.schedule⟩ := by
  obtain ⟨hwf, href⟩ := hinv
  constructor
  · intro p' hp'
    rcases cascadeRemove_mem hp' with ⟨p, hp, hcase⟩
    rcases hcase with ⟨hni, heq⟩ | ⟨hmem, hne, heq⟩
    · rw [heq]
      exact hwf p hp
    · rw [heq]
      exact ⟨List.Nodup.erase i (hwf p hp).1, hne⟩
  · intro p' hp' j hj
    rcases cascadeRemove_mem hp' with ⟨p, hp, hcase⟩
    rcases hcase with ⟨hni, heq⟩ | ⟨hmem, hne, heq⟩
    · rw [heq] at hj
      have hji : j ≠ i := fun he => hni (he ▸ hj)
      exact htasks j hji (href p hp j hj)
    · rw [heq] at hj
      have hj' := ((hwf p hp).1.mem_erase_iff).1 hj
      exact htasks j hj'.1 (href p hp j hj'.2)

/-- `remove_task` preserves the full schedule invariant. -/
theorem remove_preserves (i : Nat) (s : State) (hinv : SchedInv s) :
    SchedInv (remove_task i s).2 := by
  by_cases hfound : s.tasks.any (fun t => t.id == i) = true
  · have hid : (remove_task i s).2
        = ⟨s.tasks.eraseP (fun t => t.id == i), cascadeRemove i s.schedule⟩ := by
      simp [remove_task, hfound]
    rw [hid]
    refine cascade_schedInv i s _ hinv ?_
    intro j hji ⟨t, ht, hjt⟩
    refine ⟨t, ?_, hjt⟩
    exact (List.mem_eraseP_of_neg (by simp [hjt, hji])).2 ht
  · have hid : (remove_task i s).2 = s := by
      simp [remove_task, hfound]
    rw [hid]
    exact hinv

/-- `unschedule_task` preserves the full schedule invariant. -/
theorem unschedule_preserves (i : Nat) (s : State) (hinv : SchedInv s) :
    SchedInv (unschedule_task i s).2 := by
  have hid : (unschedule_task i s).2 = ⟨s.tasks, cascadeRemove i s.schedule⟩ := rfl
  rw [hid]
  exact cascade_schedInv i s s.tasks hinv (fun j _ hj => hj)

/-- `mark_complete` preserves the full schedule invariant. -/
theorem mark_preserves (i : Nat) (s : State) (hinv : SchedInv s) :
    SchedInv (mark_complete i s).2 := by
  obtain ⟨hwf, href⟩ := hinv
  by_cases hfound : s.tasks.any (fun t => t.id == i) = true
  · have hid : (mark_complete i s).2 = ⟨setCompleteFirst i s.tasks, s.schedule⟩ := by
      simp [mark_complete, hfound]
    rw [hid]
    exact ⟨hwf, fun p hp j hj => exists_id_setCompleteFirst (href p hp j hj)⟩
  · have hid : (mark_complete i s).2 = s := by
      simp [mark_complete, hfound]
    rw [hid]
    exact ⟨hwf, href⟩

/-- `add_task` preserves the full schedule invariant: it only appends a
task, and its optional internal `schedule_task` call uses the id of the task
just appended. -/
theorem add_preserves (d p : String) (sch : Option String) (now : String)
    (s : State) (hinv : SchedInv s) : SchedInv (add_task d p sch now s).2 := by
  obtain ⟨hwf, href⟩ := hinv
  have hinv1 : SchedInv ⟨s.tasks ++ [⟨s.tasks.length + 1, d, p, false, now⟩], s.schedule⟩ := by
    refine ⟨hwf, fun q hq j hj => ?_⟩
    rcases href q hq j hj with ⟨t, ht, hjt⟩
    exact ⟨t, List.mem_append_left _ ht, hjt⟩
  cases sch with
  | none => exact hinv1
  | some t =>
      by_cases he : t.isEmpty
      · have hid : (add_task d p (some t) now s).2
            = ⟨s.tasks ++ [⟨s.tasks.length + 1, d, p, false, now⟩], s.schedule⟩ := by
          simp [add_task, he]
        rw [hid]
        exact hinv1
      · have hid : (add_task d p (some t) now s).2
            = (schedule_task (s.tasks.length + 1) t
                ⟨s.tasks ++ [⟨s.tasks.length + 1, d, p, false, now⟩], s.schedule⟩).2 := by
          simp [add_task, he]
        rw [hid]
        exact schedule_preserves _ t _ hinv1
          ⟨⟨s.tasks.length + 1, d, p, false, now⟩, by simp, rfl⟩

/-- Every state reached by the checked operations satisfies the full
schedule invariant. -/
theorem schedInv_of_reachChk {s : State} (h : ReachChk s) : SchedInv s := by
  induction h with
  | empty =>
      exact ⟨fun p hp => absurd hp (by simp [State.empty]),
        fun p hp => absurd hp (by simp [State.empty])⟩
  | add s d p sch now _ ih => exact add_preserves d p sch now s ih
  | remove s i _ ih => exact remove_preserves i s ih
  | mark s i _ ih => exact mark_preserves i s ih
  | sched s i t _ hpres ih =>
      refine schedule_preserves i t s ih ?_
      rcases List.any_eq_true.1 hpres with ⟨tk, htk, hb⟩
      exact ⟨tk, htk, by simpa using hb⟩
  | unsched s i _ ih => exact unschedule_preserves i s ih

/-- Claim C2 as amended: in every state reachable from the empty store by
`add_task`, `remove_task`, `mark_complete`, `unschedule_task`, and
`schedule_task` restricted to ids of currently-present tasks, every task id
appearing in any Schedule Index slot refers to a task currently present in
the Task Store.  (Unrestricted `schedule_task` breaks this — see the
counterexample — because it performs no existence check.) -/
theorem claim2_referential_integrity (s : State) (h : ReachChk s) :
    RefIntegrity s :=
  (schedInv_of_reachChk h).2

/-- Witness for C2 at the concrete reached state with task 1 scheduled at
"09:00". -/
theorem claim2_witness : RefIntegrity wSched :=
  claim2_referential_integrity wSched
    (ReachChk.sched _ 1 "09:00"
      (ReachChk.add State.empty "Buy milk" "high" none "2025-01-01 09:00" ReachChk.empty)
      (by decide))

/-- Claim C10 (confirmed): `mark_complete` changes at most the `completed`
field of the first task whose id matches; every other field of that task,
every task with a different id, and the whole Schedule Index are unchanged,
found or not — and a second call with the same id returns the same outcome
and leaves the state identical. -/
theorem claim10_mark_complete_frame (s : State) (i : Nat) :
    (mark_complete i s).2.schedule = s.schedule ∧
      List.Forall₂ (MarkFrame i) s.tasks (mark_complete i s).2.tasks ∧
      mark_complete i (mark_complete i s).2 = ((mark_complete i s).1, (mark_complete i s).2) := by
  by_cases h : s.tasks.any (fun t => t.id == i) = true
  · refine ⟨by simp [mark_complete, h], by simp [mark_complete, h, setCompleteFirst_frame], ?_⟩
    simp [mark_complete, h, setCompleteFirst_any, setCompleteFirst_idem]
  · refine ⟨by simp [mark_complete, h], ?_, ?_⟩
    · simp only [mark_complete, if_neg h]
      exact List.forall₂_same.2 (fun x _ => ⟨rfl, rfl, rfl, rfl, fun _ => rfl⟩)
    · simp [mark_complete, h]

end TodoScheduler
